import Mathlib

/-!
Verification development for the room-state core of the `srv` repository
(`src/room.rs`): incremental reconciliation of a remote spatial game-room
snapshot from partial delta updates, and deterministic conversion of that
snapshot into a spatially indexed, render-ready layer.

The Rust code is shallowly embedded: pure functions become Lean functions,
in-place mutation becomes explicit state passing, fallible operations
return `Except` or `Option`, and panics (`assert_eq!` / `.expect(...)`)
are modelled as `none`.  Types from the external `screeps-api` crate
(terrain, flags, room objects, user info, deltas) are embedded with the
fields this repository reads and with the semantics the spec ascribes to
the external serde-driven merge machinery.
-/

namespace Srv

/-- Terrain classification per cell, mirroring
`screeps_api::endpoints::room_terrain::TerrainType`. -/
inductive TerrainType where
  | Plains
  | Swamp
  | Wall
  | SwampyWall
deriving DecidableEq

/-- Room names are opaque identifiers compared for equality
(`screeps_api::RoomName` as used by this repository). -/
structure RoomName where
  name : String
deriving DecidableEq

/-- Terrain data `screeps_api::RoomTerrain`: a room name plus a grid of terrain cells
(outer list indexed by row, inner by column). -/
structure RoomTerrain where
  room_name : RoomName
  terrain : List (List TerrainType)
deriving DecidableEq

/-- Flag data `screeps_api::websocket::types::room::flags::Flag` as used by this
repository: a name and a position.  The external crate derives
`PartialEq` structurally, so flag equality compares every field. -/
structure Flag where
  name : String
  x : Nat
  y : Nat
deriving DecidableEq

/-- Structure `RoomId` from `room.rs`: optional shard label plus room name. -/
structure RoomId where
  shard : Option String
  room_name : RoomName
deriving DecidableEq

/-- The 24 object kinds of `RoomObjectType` in `room.rs`, in source
declaration order. -/
inductive RoomObjectType where
  | Road
  | Container
  | Tombstone
  | Resource
  | Rampart
  | Wall
  | Source
  | Mineral
  | KeeperLair
  | Controller
  | Extractor
  | Extension
  | Spawn
  | Portal
  | Link
  | Storage
  | Tower
  | Observer
  | PowerBank
  | PowerSpawn
  | Lab
  | Terminal
  | Nuker
  | Creep
deriving DecidableEq

/-- Discriminant of a `RoomObjectType` constructor, in declaration order.
the derived Rust `Ord` on a fieldless enum compares discriminants. -/
def RoomObjectType.rank : RoomObjectType → Nat
  | .Road => 0
  | .Container => 1
  | .Tombstone => 2
  | .Resource => 3
  | .Rampart => 4
  | .Wall => 5
  | .Source => 6
  | .Mineral => 7
  | .KeeperLair => 8
  | .Controller => 9
  | .Extractor => 10
  | .Extension => 11
  | .Spawn => 12
  | .Portal => 13
  | .Link => 14
  | .Storage => 15
  | .Tower => 16
  | .Observer => 17
  | .PowerBank => 18
  | .PowerSpawn => 19
  | .Lab => 20
  | .Terminal => 21
  | .Nuker => 22
  | .Creep => 23

/-- Object data `screeps_api::websocket::types::room::objects::KnownRoomObject` as
used by this repository: a tagged union of 24 kinds, each carrying an id
and a position; `energy` stands for the kind-specific payload fields
(present so that equality-by-(kind,id) is genuinely coarser than
structural equality). -/
structure KnownRoomObject where
  ty : RoomObjectType
  id : String
  x : Nat
  y : Nat
  energy : Nat
deriving DecidableEq

/-- Function `RoomObjectType::of`: the kind tag of an object. -/
def RoomObjectType.of (obj : KnownRoomObject) : RoomObjectType :=
  obj.ty

/-- A per-object JSON payload from a delta, as this repository consumes it
through serde: a partial record of the object fields.  `bad` models a
payload whose present fields fail to parse (type errors), which makes
both full deserialization and field-merge fail with a serde error. -/
structure ObjPayload where
  bad : Bool
  ty : Option RoomObjectType
  id : Option String
  x : Option Nat
  y : Option Nat
  energy : Option Nat
deriving DecidableEq

/-- Serde error, abstracting `serde_json::Error`. -/
inductive SerdeErr where
  | malformed
  | missingField
deriving DecidableEq

/-- The value attached to an id in the object or user set of a delta: either
the explicit JSON `null` marker or a payload (`serde_json::Value` as
dispatched by `data.is_null()` in `Room::update`). -/
inductive JsonVal (π : Type) where
  | null
  | payload (p : π)
deriving DecidableEq

/-- Deserialization `serde_json::from_value::<KnownRoomObject>`: deserializing a payload
as a complete new entity.  Modelled from the spec: a complete entity
needs its kind, id and position; a malformed payload fails. -/
def ObjPayload.deserialize (p : ObjPayload) : Except SerdeErr KnownRoomObject :=
  if p.bad then .error .malformed
  else
    match p.ty, p.id, p.x, p.y with
    | some ty, some id, some x, some y => .ok ⟨ty, id, x, y, p.energy.getD 0⟩
    | _, _, _, _ => .error .missingField

/-- Merge `KnownRoomObject::update`: merge a partial payload into an existing
entity field by field.  Modelled from the spec: fields present in the
payload overwrite, fields absent are preserved; a malformed payload
fails. -/
def KnownRoomObject.update (o : KnownRoomObject) (p : ObjPayload) :
    Except SerdeErr KnownRoomObject :=
  if p.bad then .error .malformed
  else .ok ⟨p.ty.getD o.ty, p.id.getD o.id, p.x.getD o.x, p.y.getD o.y,
    p.energy.getD o.energy⟩

/-- User data `screeps_api::websocket::RoomUserInfo` as used by this repository. -/
structure RoomUserInfo where
  username : Option String
  badge : Option String
deriving DecidableEq

/-- The partial-update struct for `RoomUserInfo` (the target of
`serde_json::from_value` on the merge path). -/
structure RoomUserInfoUpdate where
  username : Option String
  badge : Option String
deriving DecidableEq

/-- A per-user JSON payload from a delta; `bad` models a payload whose
fields fail to parse. -/
structure UserPayload where
  bad : Bool
  username : Option String
  badge : Option String
deriving DecidableEq

/-- Deserialize a user payload as a partial update struct. -/
def UserPayload.deserializeUpdate (p : UserPayload) :
    Except SerdeErr RoomUserInfoUpdate :=
  if p.bad then .error .malformed else .ok ⟨p.username, p.badge⟩

/-- Deserialize a user payload as a complete `RoomUserInfo`. -/
def UserPayload.deserialize (p : UserPayload) : Except SerdeErr RoomUserInfo :=
  if p.bad then .error .malformed else .ok ⟨p.username, p.badge⟩

/-- Merge `RoomUserInfo::update`: merge a partial update struct into the info,
fields present overwrite, fields absent are preserved. -/
def RoomUserInfo.update (i : RoomUserInfo) (u : RoomUserInfoUpdate) :
    RoomUserInfo :=
  { username := match u.username with
      | some s => some s
      | none => i.username
    badge := match u.badge with
      | some s => some s
      | none => i.badge }

/-- Association-list model of `HashMap::get` / key lookup. -/
def mapLookup {α : Type} (id : String) : List (String × α) → Option α
  | [] => none
  | kv :: rest => if kv.1 = id then some kv.2 else mapLookup id rest

/-- Association-list model of `HashMap::remove`: drop every pair carrying
the key. -/
def mapRemove {α : Type} (id : String) : List (String × α) → List (String × α)
  | [] => []
  | kv :: rest =>
    if kv.1 = id then mapRemove id rest else kv :: mapRemove id rest

/-- Association-list model of writing through an occupied
`Entry`: replace the value stored at the key, keeping positions. -/
def mapSet {α : Type} (id : String) (v : α) : List (String × α) → List (String × α)
  | [] => []
  | kv :: rest =>
    if kv.1 = id then (kv.1, v) :: mapSet id v rest else kv :: mapSet id v rest

/-- One iteration of the object loop in `Room::update`: `null` removes
the id, otherwise an occupied entry is merged into and a vacant entry is
filled by full deserialization. -/
def applyObjOp (m : List (String × KnownRoomObject)) (id : String)
    (d : JsonVal ObjPayload) : Except SerdeErr (List (String × KnownRoomObject)) :=
  match d with
  | .null => .ok (mapRemove id m)
  | .payload p =>
    match mapLookup id m with
    | some o =>
      match o.update p with
      | .error e => .error e
      | .ok o2 => .ok (mapSet id o2 m)
    | none =>
      match p.deserialize with
      | .error e => .error e
      | .ok o => .ok (m ++ [(id, o)])

/-- One iteration of the user loop in `Room::update`: `null` removes the
id, an occupied entry is merged via the deserialized update struct, a
vacant entry is filled by full deserialization. -/
def applyUserOp (m : List (String × RoomUserInfo)) (id : String)
    (d : JsonVal UserPayload) : Except SerdeErr (List (String × RoomUserInfo)) :=
  match d with
  | .null => .ok (mapRemove id m)
  | .payload p =>
    match mapLookup id m with
    | some i =>
      match p.deserializeUpdate with
      | .error e => .error e
      | .ok upd => .ok (mapSet id (i.update upd) m)
    | none =>
      match p.deserialize with
      | .error e => .error e
      | .ok u => .ok (m ++ [(id, u)])

/-- Sequential processing of the (id, value) pairs of the object or
user set, mirroring the `for` loops of `Room::update`: the first failing
step stops the loop (the `?` operator) but the state reached so far is
kept, because the Rust code mutates the map in place. -/
def processEntries {α π : Type}
    (step : List (String × α) → String → JsonVal π →
      Except SerdeErr (List (String × α))) :
    List (String × α) → List (String × JsonVal π) →
      List (String × α) × Option SerdeErr
  | m, [] => (m, none)
  | m, (id, d) :: rest =>
    match step m id d with
    | .error e => (m, some e)
    | .ok m2 => processEntries step m2 rest

/-- Delta data `screeps_api::websocket::RoomUpdate` as consumed by `Room::update`:
optional game time, object set, flag list, optional user set. -/
structure RoomUpdate where
  game_time : Option Nat
  objects : List (String × JsonVal ObjPayload)
  flags : List Flag
  users : Option (List (String × JsonVal UserPayload))

/-- Structure `Room` from `room.rs`. -/
structure Room where
  last_update_time : Option Nat
  room : RoomId
  terrain : RoomTerrain
  objects : List (String × KnownRoomObject)
  flags : List Flag
  users : List (String × RoomUserInfo)

/-- Constructor `Room::new`: `assert_eq!(room.room_name, terrain.room_name)` then
construct; the panic on mismatch is modelled as `none`. -/
def Room.new (room : RoomId) (terrain : RoomTerrain) : Option Room :=
  if room.room_name = terrain.room_name then
    some ⟨none, room, terrain, [], [], []⟩
  else none

/-- Timestamp phase of `Room::update`: a delta carrying a game time
unconditionally overwrites `last_update_time`. -/
def Room.withTime (r : Room) (t : Option Nat) : Room :=
  match t with
  | some time => { r with last_update_time := some time }
  | none => r

/-- Function `Room::update`: overwrite the timestamp if the delta carries one,
process the object set (stopping at the first serde error but keeping
earlier mutations, in which case the flag list and users are not
reached), then replace the flag list wholesale, then process the user
set (absent user set means no iterations; a serde error there also
keeps earlier mutations).  The returned pair is the room state left in
place by the call plus the error, if any. -/
def Room.update (r : Room) (u : RoomUpdate) : Room × Option SerdeErr :=
  match processEntries applyObjOp (r.withTime u.game_time).objects u.objects with
  | (m, some e) => ({ r.withTime u.game_time with objects := m }, some e)
  | (m, none) =>
    match processEntries applyUserOp (r.withTime u.game_time).users
        (u.users.getD []) with
    | (mu, some e) =>
      ({ r.withTime u.game_time with
          objects := m, flags := u.flags, users := mu }, some e)
    | (mu, none) =>
      ({ r.withTime u.game_time with
          objects := m, flags := u.flags, users := mu }, none)

/-- The two drawable terrain classifications of `InterestingTerrainType`
in `room.rs`, in source declaration order. -/
inductive InterestingTerrainType where
  | Swamp
  | Wall
deriving DecidableEq

/-- Discriminant of `InterestingTerrainType`, for the derived `Ord`. -/
def InterestingTerrainType.rank : InterestingTerrainType → Nat
  | .Swamp => 0
  | .Wall => 1

/-- Classification `InterestingTerrainType::from_terrain`: `Plains` is not drawn, swamp
maps to `Swamp`, both wall variants map to `Wall`. -/
def InterestingTerrainType.from_terrain :
    TerrainType → Option InterestingTerrainType
  | .Plains => none
  | .Swamp => some .Swamp
  | .Wall => some .Wall
  | .SwampyWall => some .Wall

/-- Union `VisualObject` from `room.rs`: terrain marker, flag, or room object. -/
inductive VisualObject where
  | InterestingTerrain (x : Nat) (y : Nat) (ty : InterestingTerrainType)
  | Flag (f : Srv.Flag)
  | RoomObject (o : KnownRoomObject)
deriving DecidableEq

/-- Accessor `VisualObject::x`. -/
def VisualObject.x : VisualObject → Nat
  | .InterestingTerrain x _ _ => x
  | .Flag f => f.x
  | .RoomObject o => o.x

/-- Accessor `VisualObject::y`. -/
def VisualObject.y : VisualObject → Nat
  | .InterestingTerrain _ y _ => y
  | .Flag f => f.y
  | .RoomObject o => o.y

/-- The hand-written `impl PartialEq for VisualObject`: terrain markers
compare by (kind, x, y); flags delegate to the own (structural)
equality; room objects compare by (kind, id) only; different variants
are unequal. -/
def VisualObject.veq : VisualObject → VisualObject → Bool
  | .InterestingTerrain x1 y1 t1, .InterestingTerrain x2 y2 t2 =>
    decide (t1 = t2) && decide (x1 = x2) && decide (y1 = y2)
  | .Flag a, .Flag b => decide (a = b)
  | .RoomObject a, .RoomObject b =>
    decide (RoomObjectType.of a = RoomObjectType.of b) && decide (a.id = b.id)
  | _, _ => false

/-- Three-way comparison derived from a linear order, modelling the Rust
`Ord::cmp` on numeric types and characters. -/
def cmpLin {β : Type} [LinearOrder β] (a b : β) : Ordering :=
  if a < b then .lt else if a = b then .eq else .gt

/-- Lexicographic comparison of char lists, modelling the Rust `Ord` on
`String` (UTF-8 byte order coincides with code-point order, which is the
order on `Char`). -/
def strCmpAux : List Char → List Char → Ordering
  | [], [] => .eq
  | [], _ :: _ => .lt
  | _ :: _, [] => .gt
  | a :: as, b :: bs => (cmpLin a b).then (strCmpAux as bs)

/-- Model of the Rust `String::cmp`: lexicographic order. -/
def strCmp (a b : String) : Ordering :=
  strCmpAux a.data b.data

/-- The derived `Ord` on `InterestingTerrainType`: `Swamp` before
`Wall`. -/
def ittCmp (a b : InterestingTerrainType) : Ordering :=
  cmpLin a.rank b.rank

/-- The derived `Ord` on `RoomObjectType`: declaration order. -/
def rotCmp (a b : RoomObjectType) : Ordering :=
  cmpLin a.rank b.rank

/-- The hand-written `impl Ord for VisualObject`: terrain markers first
(ordered by kind, then x, then y), then flags (ordered by name), then
room objects (ordered by kind, then id). -/
def VisualObject.cmp : VisualObject → VisualObject → Ordering
  | .InterestingTerrain x1 y1 t1, .InterestingTerrain x2 y2 t2 =>
    ((ittCmp t1 t2).then (cmpLin x1 x2)).then (cmpLin y1 y2)
  | .InterestingTerrain _ _ _, _ => .lt
  | _, .InterestingTerrain _ _ _ => .gt
  | .Flag a, .Flag b => strCmp a.name b.name
  | .Flag _, _ => .lt
  | _, .Flag _ => .gt
  | .RoomObject a, .RoomObject b =>
    (rotCmp (RoomObjectType.of a) (RoomObjectType.of b)).then (strCmp a.id b.id)

/-- Structure `VisualRoom` from `room.rs`: timestamp, room id, and a grid of
stacks.  The `ndarray` `Array<Vec<VisualObject>, Ix2>` of shape (50, 50)
indexed by `[x, y]` is modelled as a list of 50 columns of 50 stacks. -/
structure VisualRoom where
  last_update_time : Option Nat
  room_id : RoomId
  objs : List (List (List VisualObject))

/-- Constructor `VisualRoom::new`: empty 50 by 50 grid of stacks. -/
def VisualRoom.new (last_update_time : Option Nat) (room_id : RoomId) :
    VisualRoom :=
  ⟨last_update_time, room_id, List.replicate 50 (List.replicate 50 [])⟩

/-- Method `VisualRoom::push_top`: append the item to the stack at the own
coordinates of the item; the `.expect(...)` panic on an out-of-range coordinate
is modelled as `none`. -/
def VisualRoom.push_top (r : VisualRoom) (item : VisualObject) :
    Option VisualRoom :=
  match r.objs.get? item.x with
  | none => none
  | some col =>
    match col.get? item.y with
    | none => none
    | some stack =>
      some { r with objs := r.objs.set item.x (col.set item.y (stack ++ [item])) }

/-- Insert into a stack already sorted by `VisualObject.cmp`. -/
def insertSorted (a : VisualObject) : List VisualObject → List VisualObject
  | [] => [a]
  | b :: bs =>
    if VisualObject.cmp a b = .gt then b :: insertSorted a bs
    else a :: b :: bs

/-- A deterministic sort by `VisualObject.cmp`, modelling
`sort_unstable` (which fixes some permutation of the stack that is
sorted with respect to the comparator). -/
def sortStack : List VisualObject → List VisualObject
  | [] => []
  | a :: as => insertSorted a (sortStack as)

/-- The terrain loop of `Room::visualize`: for every interesting terrain
cell push a marker whose x is the column index and whose y is the row
index. -/
def visTerrain (terrain : List (List TerrainType)) (v : VisualRoom) :
    Option VisualRoom :=
  terrain.enum.foldlM (fun acc rc =>
    rc.2.enum.foldlM (fun acc2 cc =>
      match InterestingTerrainType.from_terrain cc.2 with
      | some itt => acc2.push_top (.InterestingTerrain cc.1 rc.1 itt)
      | none => pure acc2) acc) v

/-- The flag loop of `Room::visualize`. -/
def visFlags (flags : List Flag) (v : VisualRoom) : Option VisualRoom :=
  flags.foldlM (fun acc f => acc.push_top (.Flag f)) v

/-- The object loop of `Room::visualize` (iterating the values of the
object map). -/
def visObjects (objs : List (String × KnownRoomObject)) (v : VisualRoom) :
    Option VisualRoom :=
  objs.foldlM (fun acc kv => acc.push_top (.RoomObject kv.2)) v

/-- Function `Room::visualize`: allocate the grid, push a marker for every
interesting terrain cell (column index is x, row index is y), push every
flag, push every object, then sort every stack; a coordinate outside the
grid aborts the whole computation (`none`). -/
def Room.visualize (r : Room) : Option VisualRoom :=
  match visTerrain r.terrain.terrain (VisualRoom.new r.last_update_time r.room) with
  | none => none
  | some v1 =>
    match visFlags r.flags v1 with
    | none => none
    | some v2 =>
      match visObjects r.objects v2 with
      | none => none
      | some v3 =>
        some { v3 with objs := v3.objs.map (fun col => col.map sortStack) }

/-- The stack of the grid cell addressed as `objs[[i, j]]`. -/
def cellOf (v : VisualRoom) (i j : Nat) : List VisualObject :=
  (v.objs.getD i []).getD j []

/-- Whether a `VisualObject` is the flag variant. -/
def VisualObject.isFlagV : VisualObject → Bool
  | .Flag _ => true
  | _ => false

/-- Well-formedness of the grid: 50 columns of 50 stacks, as allocated
by `VisualRoom::new` and preserved by `push_top`. -/
def VisualRoom.WF (v : VisualRoom) : Prop :=
  v.objs.length = 50 ∧ ∀ col ∈ v.objs, col.length = 50

/-- Every object in every stack sits at the cell named by its own
coordinates. -/
def Placed (v : VisualRoom) : Prop :=
  ∀ i j o, o ∈ cellOf v i j → VisualObject.x o = i ∧ VisualObject.y o = j

/-- Every object in every stack of the grid satisfies `S`. -/
def CellsSat (S : VisualObject → Prop) (v : VisualRoom) : Prop :=
  ∀ i j o, o ∈ cellOf v i j → S o

/-- Lawfulness bundle for a three-way comparison: it is its own dual
(hence total and asymmetric), comparing-as-equal reflects equality, and
the strict part is transitive. -/
structure CmpValid {β : Type} (c : β → β → Ordering) : Prop where
  dual : ∀ a b, c a b = (c b a).swap
  eq_iff : ∀ a b, c a b = .eq ↔ a = b
  lt_trans : ∀ a b d, c a b = .lt → c b d = .lt → c a d = .lt

/-- Lexicographic product of two comparison functions. -/
def prodCmp {β γ : Type} (c1 : β → β → Ordering) (c2 : γ → γ → Ordering)
    (a b : β × γ) : Ordering :=
  (c1 a.1 b.1).then (c2 a.2 b.2)

/-- A room with no terrain rows, no objects, no flags, no users. -/
def emptyRoom : Room :=
  ⟨none, ⟨none, ⟨ "W0N0" ⟩⟩, ⟨⟨ "W0N0" ⟩, []⟩, [], [], []⟩

/-- The terrain of the visualization scenario: 50 rows of 50 cells, all
plains except swamp at (x, y) = (1, 1) and wall at (2, 2) (the row index
is y and the column index is x). -/
def c2Terrain : RoomTerrain :=
  ⟨⟨ "W1N1" ⟩, (List.range 50).map (fun r => (List.range 50).map (fun c =>
    if r = 1 ∧ c = 1 then TerrainType.Swamp
    else if r = 2 ∧ c = 2 then TerrainType.Wall
    else TerrainType.Plains))⟩

/-- The room of the visualization scenario: the terrain above, a flag
named Alpha at (1, 1), and a creep with id c1 at (1, 1). -/
def c2Room : Room :=
  ⟨none, ⟨none, ⟨ "W1N1" ⟩⟩, c2Terrain,
    [( "c1", ⟨RoomObjectType.Creep, "c1", 1, 1, 0⟩)], [⟨ "Alpha", 1, 1 ⟩], []⟩

/-- A room holding one object under key gone, for the deletion witness. -/
def c3Room : Room :=
  { emptyRoom with objects := [( "gone", ⟨RoomObjectType.Creep, "gone", 3, 3, 7⟩)] }

/-- A delta that deletes the id gone. -/
def c3Delta : RoomUpdate := ⟨none, [( "gone", .null)], [], none⟩

/-- A delta carrying a timestamp, one well-formed object payload, one
flag, and one malformed user payload: the user payload fails to
deserialize after the timestamp, object and flag phases have run. -/
def c4Delta : RoomUpdate :=
  ⟨some 42,
    [( "c1", .payload ⟨false, some RoomObjectType.Creep, some "c1", some 1, some 1, none⟩)],
    [⟨ "F", 3, 4 ⟩],
    some [( "u1", .payload ⟨true, none, none⟩)]⟩

/-- A room whose only flag sits at the out-of-range position x = 50. -/
def c5Room : Room := { emptyRoom with flags := [⟨ "X", 50, 0 ⟩] }

/-- A room with one flag, for the flag-replacement witness. -/
def c6Room : Room := { emptyRoom with flags := [⟨ "Old", 1, 1 ⟩] }

/-- A delta with an empty object set, an empty flag list and no user
set. -/
def c6Delta : RoomUpdate := ⟨none, [], [], none⟩

/-- A delta inserting one complete object payload under key a1. -/
def c7Delta : RoomUpdate :=
  ⟨none,
    [( "a1", .payload ⟨false, some RoomObjectType.Road, some "a1", some 2, some 2, some 5⟩)],
    [], none⟩

/-- A delta with an empty object set and no user set. -/
def c8Delta : RoomUpdate := ⟨none, [], [], none⟩

/-- A room with one in-range flag at (1, 2), for the placement witness. -/
def c10Room : Room := { emptyRoom with flags := [⟨ "F", 1, 2 ⟩] }

end Srv

namespace Srv

theorem cmpLin_eq_lt {β : Type} [LinearOrder β] (a b : β) :
    cmpLin a b = .lt ↔ a < b := by
  unfold cmpLin
  rcases lt_trichotomy a b with h | h | h
  · simp [h]
  · subst h; simp [lt_irrefl]
  · simp [lt_asymm h, ne_of_gt h]

theorem cmpLin_eq_eq {β : Type} [LinearOrder β] (a b : β) :
    cmpLin a b = .eq ↔ a = b := by
  unfold cmpLin
  rcases lt_trichotomy a b with h | h | h
  · simp [h, ne_of_lt h]
  · subst h; simp [lt_irrefl]
  · simp [lt_asymm h, ne_of_gt h]

theorem cmpLin_eq_gt {β : Type} [LinearOrder β] (a b : β) :
    cmpLin a b = .gt ↔ b < a := by
  unfold cmpLin
  rcases lt_trichotomy a b with h | h | h
  · simp [h, lt_asymm h]
  · subst h; simp [lt_irrefl]
  · simp [lt_asymm h, ne_of_gt h, h]

theorem cmpLinValid {β : Type} [LinearOrder β] : CmpValid (cmpLin (β := β)) := by
  refine ⟨fun a b => ?_, cmpLin_eq_eq, fun a b d h1 h2 => ?_⟩
  · rcases lt_trichotomy a b with h | h | h
    · rw [(cmpLin_eq_lt a b).mpr h, (cmpLin_eq_gt b a).mpr h]; rfl
    · rw [(cmpLin_eq_eq a b).mpr h, (cmpLin_eq_eq b a).mpr h.symm]; rfl
    · rw [(cmpLin_eq_gt a b).mpr h, (cmpLin_eq_lt b a).mpr h]; rfl
  · exact (cmpLin_eq_lt a d).mpr
      (lt_trans ((cmpLin_eq_lt a b).mp h1) ((cmpLin_eq_lt b d).mp h2))

theorem then_assoc (a b c : Ordering) :
    (a.then b).then c = a.then (b.then c) := by
  cases a <;> rfl

theorem prodCmpValid {β γ : Type} {c1 : β → β → Ordering}
    {c2 : γ → γ → Ordering} (h1 : CmpValid c1) (h2 : CmpValid c2) :
    CmpValid (prodCmp c1 c2) := by
  constructor
  · intro a b
    show (c1 a.1 b.1).then (c2 a.2 b.2) = ((c1 b.1 a.1).then (c2 b.2 a.2)).swap
    rw [Ordering.swap_then, ← h1.dual, ← h2.dual]
  · intro a b
    show (c1 a.1 b.1).then (c2 a.2 b.2) = .eq ↔ a = b
    rw [Ordering.then_eq_eq, h1.eq_iff, h2.eq_iff, Prod.ext_iff]
  · intro a b d hab hbd
    show (c1 a.1 d.1).then (c2 a.2 d.2) = .lt
    replace hab : (c1 a.1 b.1).then (c2 a.2 b.2) = .lt := hab
    replace hbd : (c1 b.1 d.1).then (c2 b.2 d.2) = .lt := hbd
    rw [Ordering.then_eq_lt] at hab hbd ⊢
    rcases hab with hab | ⟨hab, hab2⟩
    · rcases hbd with hbd | ⟨hbd, hbd2⟩
      · exact Or.inl (h1.lt_trans _ _ _ hab hbd)
      · rw [h1.eq_iff] at hbd
        exact Or.inl (hbd ▸ hab)
    · rw [h1.eq_iff] at hab
      rcases hbd with hbd | ⟨hbd, hbd2⟩
      · exact Or.inl (hab ▸ hbd)
      · rw [h1.eq_iff] at hbd
        exact Or.inr ⟨by rw [h1.eq_iff]; exact hab.trans hbd,
          h2.lt_trans _ _ _ hab2 hbd2⟩

theorem strCmpAuxValid : CmpValid strCmpAux := by
  have hc : CmpValid (cmpLin (β := Char)) := cmpLinValid
  constructor
  · intro a
    induction a with
    | nil => intro b; cases b <;> rfl
    | cons x xs ih =>
      intro b
      cases b with
      | nil => rfl
      | cons y ys =>
        show (cmpLin x y).then (strCmpAux xs ys)
            = ((cmpLin y x).then (strCmpAux ys xs)).swap
        rw [Ordering.swap_then, ← hc.dual, ← ih ys]
  · intro a
    induction a with
    | nil => intro b; cases b <;> simp [strCmpAux]
    | cons x xs ih =>
      intro b
      cases b with
      | nil => simp [strCmpAux]
      | cons y ys =>
        show (cmpLin x y).then (strCmpAux xs ys) = .eq ↔ x :: xs = y :: ys
        rw [Ordering.then_eq_eq, hc.eq_iff, ih ys]
        simp
  · intro a
    induction a with
    | nil =>
      intro b d h1 h2
      cases b with
      | nil => exact h2
      | cons y ys => cases d with
        | nil => cases h2
        | cons z zs => rfl
    | cons x xs ih =>
      intro b d h1 h2
      cases b with
      | nil => cases h1
      | cons y ys =>
        cases d with
        | nil => cases h2
        | cons z zs =>
          replace h1 : (cmpLin x y).then (strCmpAux xs ys) = .lt := h1
          replace h2 : (cmpLin y z).then (strCmpAux ys zs) = .lt := h2
          show (cmpLin x z).then (strCmpAux xs zs) = .lt
          rw [Ordering.then_eq_lt] at h1 h2 ⊢
          rcases h1 with h1 | ⟨h1, h1b⟩
          · rcases h2 with h2 | ⟨h2, h2b⟩
            · exact Or.inl (hc.lt_trans _ _ _ h1 h2)
            · rw [hc.eq_iff] at h2; exact Or.inl (h2 ▸ h1)
          · rw [hc.eq_iff] at h1
            rcases h2 with h2 | ⟨h2, h2b⟩
            · exact Or.inl (h1 ▸ h2)
            · rw [hc.eq_iff] at h2
              exact Or.inr ⟨by rw [hc.eq_iff]; exact h1.trans h2,
                ih ys zs h1b h2b⟩

theorem strCmpValid : CmpValid strCmp := by
  constructor
  · intro a b; exact strCmpAuxValid.dual a.data b.data
  · intro a b
    rw [show strCmp a b = strCmpAux a.data b.data from rfl,
      strCmpAuxValid.eq_iff]
    constructor
    · intro h
      cases a; cases b; exact congrArg String.mk h
    · intro h; rw [h]
  · intro a b d h1 h2; exact strCmpAuxValid.lt_trans a.data b.data d.data h1 h2

theorem rotRank_inj : ∀ a b : RoomObjectType, a.rank = b.rank → a = b := by
  intro a b
  cases a <;> cases b <;> simp [RoomObjectType.rank]

theorem rotCmpValid : CmpValid rotCmp := by
  constructor
  · intro a b; exact cmpLinValid.dual a.rank b.rank
  · intro a b
    rw [show rotCmp a b = cmpLin a.rank b.rank from rfl, cmpLin_eq_eq]
    exact ⟨rotRank_inj a b, fun h => h ▸ rfl⟩
  · intro a b d h1 h2; exact cmpLinValid.lt_trans a.rank b.rank d.rank h1 h2

theorem ittRank_inj : ∀ a b : InterestingTerrainType, a.rank = b.rank → a = b := by
  intro a b
  cases a <;> cases b <;> simp [InterestingTerrainType.rank]

theorem ittCmpValid : CmpValid ittCmp := by
  constructor
  · intro a b; exact cmpLinValid.dual a.rank b.rank
  · intro a b
    rw [show ittCmp a b = cmpLin a.rank b.rank from rfl, cmpLin_eq_eq]
    exact ⟨ittRank_inj a b, fun h => h ▸ rfl⟩
  · intro a b d h1 h2; exact cmpLinValid.lt_trans a.rank b.rank d.rank h1 h2

theorem itKeyValid :
    CmpValid (prodCmp ittCmp (prodCmp (cmpLin (β := Nat)) (cmpLin (β := Nat)))) :=
  prodCmpValid ittCmpValid (prodCmpValid cmpLinValid cmpLinValid)

theorem roKeyValid : CmpValid (prodCmp rotCmp strCmp) :=
  prodCmpValid rotCmpValid strCmpValid

theorem cmp_IT_IT (x1 y1 : Nat) (t1 : InterestingTerrainType)
    (x2 y2 : Nat) (t2 : InterestingTerrainType) :
    VisualObject.cmp (.InterestingTerrain x1 y1 t1) (.InterestingTerrain x2 y2 t2)
      = prodCmp ittCmp (prodCmp (cmpLin (β := Nat)) (cmpLin (β := Nat)))
          (t1, x1, y1) (t2, x2, y2) := by
  show ((ittCmp t1 t2).then (cmpLin x1 x2)).then (cmpLin y1 y2)
      = (ittCmp t1 t2).then ((cmpLin x1 x2).then (cmpLin y1 y2))
  exact then_assoc _ _ _

theorem cmp_RO_RO (a b : KnownRoomObject) :
    VisualObject.cmp (.RoomObject a) (.RoomObject b)
      = prodCmp rotCmp strCmp (RoomObjectType.of a, a.id)
          (RoomObjectType.of b, b.id) := rfl

theorem visualCmp_dual (a b : VisualObject) :
    VisualObject.cmp a b = (VisualObject.cmp b a).swap := by
  cases a <;> cases b <;>
    first
      | rfl
      | (rw [cmp_IT_IT, cmp_IT_IT]; exact itKeyValid.dual _ _)
      | (rw [cmp_RO_RO, cmp_RO_RO]; exact roKeyValid.dual _ _)
      | exact strCmpValid.dual _ _

theorem visualCmp_lt_trans (a b c : VisualObject)
    (h1 : VisualObject.cmp a b = .lt) (h2 : VisualObject.cmp b c = .lt) :
    VisualObject.cmp a c = .lt := by
  cases a <;> cases b <;> cases c <;>
    first
      | rfl
      | (simp [VisualObject.cmp] at h1; done)
      | (simp [VisualObject.cmp] at h2; done)
      | (rw [cmp_IT_IT] at h1 h2 ⊢; exact itKeyValid.lt_trans _ _ _ h1 h2)
      | (rw [cmp_RO_RO] at h1 h2 ⊢; exact roKeyValid.lt_trans _ _ _ h1 h2)
      | exact strCmpValid.lt_trans _ _ _ h1 h2

theorem visualCmp_eq_of_veq (a b : VisualObject)
    (h : VisualObject.veq a b = true) : VisualObject.cmp a b = .eq := by
  cases a with
  | InterestingTerrain x1 y1 t1 =>
    cases b with
    | InterestingTerrain x2 y2 t2 =>
      simp only [VisualObject.veq, Bool.and_eq_true, decide_eq_true_eq] at h
      obtain ⟨⟨ht, hx⟩, hy⟩ := h
      subst ht; subst hx; subst hy
      rw [cmp_IT_IT]
      exact (itKeyValid.eq_iff _ _).mpr rfl
    | Flag g => exact nomatch h
    | RoomObject o => exact nomatch h
  | Flag f =>
    cases b with
    | InterestingTerrain x2 y2 t2 => exact nomatch h
    | Flag g =>
      simp only [VisualObject.veq, decide_eq_true_eq] at h
      subst h
      exact (strCmpValid.eq_iff _ _).mpr rfl
    | RoomObject o => exact nomatch h
  | RoomObject o =>
    cases b with
    | InterestingTerrain x2 y2 t2 => exact nomatch h
    | Flag g => exact nomatch h
    | RoomObject o2 =>
      simp only [VisualObject.veq, Bool.and_eq_true, decide_eq_true_eq] at h
      rw [cmp_RO_RO]
      exact (roKeyValid.eq_iff _ _).mpr (Prod.ext h.1 h.2)

theorem visualCmp_eq_iff_veq_nonflag (a b : VisualObject)
    (h : VisualObject.isFlagV a = false ∨ VisualObject.isFlagV b = false) :
    VisualObject.cmp a b = .eq ↔ VisualObject.veq a b = true := by
  refine ⟨fun he => ?_, visualCmp_eq_of_veq a b⟩
  cases a with
  | InterestingTerrain x1 y1 t1 =>
    cases b with
    | InterestingTerrain x2 y2 t2 =>
      rw [cmp_IT_IT] at he
      have := (itKeyValid.eq_iff _ _).mp he
      simp only [Prod.mk.injEq] at this
      obtain ⟨ht, hx, hy⟩ := this
      subst ht; subst hx; subst hy
      simp [VisualObject.veq]
    | Flag g => exact nomatch he
    | RoomObject o => exact nomatch he
  | Flag f =>
    cases b with
    | InterestingTerrain x2 y2 t2 => exact nomatch he
    | Flag g => rcases h with h | h <;> exact nomatch h
    | RoomObject o => exact nomatch he
  | RoomObject o =>
    cases b with
    | InterestingTerrain x2 y2 t2 => exact nomatch he
    | Flag g => exact nomatch he
    | RoomObject o2 =>
      rw [cmp_RO_RO] at he
      have := (roKeyValid.eq_iff _ _).mp he
      simp only [Prod.mk.injEq] at this
      simp [VisualObject.veq, this.1, this.2]

theorem visualCmp_flag_eq_iff (f g : Flag) :
    VisualObject.cmp (.Flag f) (.Flag g) = .eq ↔ f.name = g.name :=
  strCmpValid.eq_iff f.name g.name

/-- C1 (amended): the ordering comparator on `VisualObject` is total (it
is the swap of its own transpose) and transitive, and comparing-as-equal
coincides with the defined equality for terrain markers and room objects
(room objects equal iff same kind and same id, independent of any other
field); for flags, comparing-as-equal holds exactly when the names are
equal, which is strictly coarser than the defined flag equality, so
antisymmetry with respect to the defined equality fails on flags (see
the counterexample). -/
theorem claim_C1_order :
    (∀ a b : VisualObject, VisualObject.cmp a b = (VisualObject.cmp b a).swap) ∧
    (∀ a b c : VisualObject, VisualObject.cmp a b = .lt →
      VisualObject.cmp b c = .lt → VisualObject.cmp a c = .lt) ∧
    (∀ a b : VisualObject, VisualObject.veq a b = true →
      VisualObject.cmp a b = .eq) ∧
    (∀ a b : VisualObject,
      VisualObject.isFlagV a = false ∨ VisualObject.isFlagV b = false →
      (VisualObject.cmp a b = .eq ↔ VisualObject.veq a b = true)) ∧
    (∀ f g : Srv.Flag,
      VisualObject.cmp (.Flag f) (.Flag g) = .eq ↔ f.name = g.name) :=
  ⟨visualCmp_dual, visualCmp_lt_trans, visualCmp_eq_of_veq,
    visualCmp_eq_iff_veq_nonflag, visualCmp_flag_eq_iff⟩

/-- C1 counterexample: two flags sharing a name but sitting at different
positions compare as `eq` under the ordering comparator, yet the defined
equality (which delegates to the structural flag equality) declares
them unequal.  So comparing-as-equal does not coincide with the defined
equality on flags and the comparator is not antisymmetric with respect
to it, refuting the claim as stated. -/
theorem claim_C1_cex :
    VisualObject.cmp (.Flag ⟨ "A", 0, 0 ⟩) (.Flag ⟨ "A", 1, 1 ⟩) = .eq ∧
    VisualObject.veq (.Flag ⟨ "A", 0, 0 ⟩) (.Flag ⟨ "A", 1, 1 ⟩) = false := by
  constructor
  · exact (visualCmp_flag_eq_iff _ _).mpr rfl
  · decide

/-- Witness for C1: the amended theorem applied at concrete inputs. -/
theorem claim_C1_witness :
    VisualObject.cmp (.InterestingTerrain 0 0 .Swamp)
      (.RoomObject ⟨.Road, "r1", 0, 0, 0⟩) = .lt :=
  claim_C1_order.2.1 (.InterestingTerrain 0 0 .Swamp) (.Flag ⟨ "B", 0, 0 ⟩)
    (.RoomObject ⟨.Road, "r1", 0, 0, 0⟩) (by rfl) (by rfl)

theorem mapLookup_mapRemove_self {α : Type} (id : String)
    (m : List (String × α)) : mapLookup id (mapRemove id m) = none := by
  induction m with
  | nil => rfl
  | cons kv rest ih =>
    by_cases h : kv.1 = id
    · simpa [mapRemove, h] using ih
    · simpa [mapRemove, h, mapLookup] using ih

theorem mapLookup_mapRemove_ne {α : Type} (id k : String) (h : k ≠ id)
    (m : List (String × α)) :
    mapLookup id (mapRemove k m) = mapLookup id m := by
  induction m with
  | nil => rfl
  | cons kv rest ih =>
    by_cases hk : kv.1 = k
    · have : kv.1 ≠ id := by rw [hk]; exact h
      simp [mapRemove, hk, mapLookup, this, ih, h, Ne.symm h]
    · by_cases hid : kv.1 = id
      · simp [mapRemove, hk, mapLookup, hid, h, Ne.symm h]
      · simp [mapRemove, hk, mapLookup, hid, ih]

theorem mapLookup_mapSet_ne {α : Type} (id k : String) (v : α) (h : k ≠ id)
    (m : List (String × α)) :
    mapLookup id (mapSet k v m) = mapLookup id m := by
  induction m with
  | nil => rfl
  | cons kv rest ih =>
    by_cases hk : kv.1 = k
    · have : kv.1 ≠ id := by rw [hk]; exact h
      simp [mapSet, hk, mapLookup, this, ih, h, Ne.symm h]
    · by_cases hid : kv.1 = id
      · simp [mapSet, hk, mapLookup, hid, h, Ne.symm h]
      · simp [mapSet, hk, mapLookup, hid, ih]

theorem mapLookup_mapSet_self {α : Type} (id : String) (v : α)
    (m : List (String × α)) (o : α) (h : mapLookup id m = some o) :
    mapLookup id (mapSet id v m) = some v := by
  induction m with
  | nil => cases h
  | cons kv rest ih =>
    by_cases hid : kv.1 = id
    · simp [mapSet, hid, mapLookup]
    · simp only [mapLookup, hid, if_neg, ite_false] at h
      simp [mapSet, hid, mapLookup, ih h]

theorem mapLookup_append {α : Type} (id : String)
    (l1 l2 : List (String × α)) :
    mapLookup id (l1 ++ l2)
      = match mapLookup id l1 with
        | some v => some v
        | none => mapLookup id l2 := by
  induction l1 with
  | nil => rfl
  | cons kv rest ih =>
    by_cases hid : kv.1 = id
    · simp [mapLookup, hid]
    · simp [mapLookup, hid, ih]

theorem mapLookup_none_not_mem {α : Type} (id : String)
    (m : List (String × α)) (h : mapLookup id m = none) (v : α) :
    (id, v) ∉ m := by
  induction m with
  | nil => simp
  | cons kv rest ih =>
    intro hm
    by_cases hid : kv.1 = id
    · simp [mapLookup, hid] at h
    · simp only [mapLookup, hid, ite_false] at h
      rcases List.mem_cons.mp hm with heq | hm2
      · exact hid (by rw [← heq])
      · exact ih h hm2

theorem applyObjOp_lookup_ne (id k : String) (h : k ≠ id)
    (m m2 : List (String × KnownRoomObject)) (d : JsonVal ObjPayload)
    (hs : applyObjOp m k d = .ok m2) :
    mapLookup id m2 = mapLookup id m := by
  cases d with
  | null =>
    simp only [applyObjOp, Except.ok.injEq] at hs
    rw [← hs]; exact mapLookup_mapRemove_ne id k h m
  | payload p =>
    cases hl : mapLookup k m with
    | some o =>
      cases hup : o.update p with
      | error e => simp [applyObjOp, hl, hup] at hs
      | ok o2 =>
        simp only [applyObjOp, hl, hup, Except.ok.injEq] at hs
        rw [← hs]; exact mapLookup_mapSet_ne id k o2 h m
    | none =>
      cases hde : p.deserialize with
      | error e => simp [applyObjOp, hl, hde] at hs
      | ok o =>
        simp only [applyObjOp, hl, hde, Except.ok.injEq] at hs
        rw [← hs, mapLookup_append]
        cases hmi : mapLookup id m with
        | some v => rfl
        | none => simp [mapLookup, h, Ne.symm h]

theorem applyObjOp_null_self (id : String)
    (m m2 : List (String × KnownRoomObject))
    (hs : applyObjOp m id .null = .ok m2) : mapLookup id m2 = none := by
  simp only [applyObjOp, Except.ok.injEq] at hs
  rw [← hs]; exact mapLookup_mapRemove_self id m

theorem applyUserOp_lookup_ne (id k : String) (h : k ≠ id)
    (m m2 : List (String × RoomUserInfo)) (d : JsonVal UserPayload)
    (hs : applyUserOp m k d = .ok m2) :
    mapLookup id m2 = mapLookup id m := by
  cases d with
  | null =>
    simp only [applyUserOp, Except.ok.injEq] at hs
    rw [← hs]; exact mapLookup_mapRemove_ne id k h m
  | payload p =>
    cases hl : mapLookup k m with
    | some i =>
      cases hup : p.deserializeUpdate with
      | error e => simp [applyUserOp, hl, hup] at hs
      | ok upd =>
        simp only [applyUserOp, hl, hup, Except.ok.injEq] at hs
        rw [← hs]; exact mapLookup_mapSet_ne id k (i.update upd) h m
    | none =>
      cases hde : p.deserialize with
      | error e => simp [applyUserOp, hl, hde] at hs
      | ok u0 =>
        simp only [applyUserOp, hl, hde, Except.ok.injEq] at hs
        rw [← hs, mapLookup_append]
        cases hmi : mapLookup id m with
        | some v => rfl
        | none => simp [mapLookup, h, Ne.symm h]

theorem applyUserOp_null_self (id : String)
    (m m2 : List (String × RoomUserInfo))
    (hs : applyUserOp m id .null = .ok m2) : mapLookup id m2 = none := by
  simp only [applyUserOp, Except.ok.injEq] at hs
  rw [← hs]; exact mapLookup_mapRemove_self id m

theorem processEntries_pres_ne {α π : Type}
    (step : List (String × α) → String → JsonVal π →
      Except SerdeErr (List (String × α))) (id : String)
    (hne : ∀ m k d m2, k ≠ id → step m k d = .ok m2 →
      mapLookup id m2 = mapLookup id m) :
    ∀ (l : List (String × JsonVal π)) (m : List (String × α)),
      (∀ kd ∈ l, kd.1 ≠ id) →
      mapLookup id (processEntries step m l).1 = mapLookup id m := by
  intro l
  induction l with
  | nil => intro m _; rfl
  | cons kd rest ih =>
    intro m hl
    obtain ⟨k, d⟩ := kd
    have hk : k ≠ id := hl (k, d) (List.mem_cons_self _ _)
    show mapLookup id (match step m k d with
      | .error e => (m, some e)
      | .ok m2 => processEntries step m2 rest).1 = mapLookup id m
    cases hs : step m k d with
    | error e => rfl
    | ok m2 =>
      rw [ih m2 (fun kd2 hm => hl kd2 (List.mem_cons_of_mem _ hm))]
      exact hne m k d m2 hk hs

theorem processEntries_keep_none {α π : Type}
    (step : List (String × α) → String → JsonVal π →
      Except SerdeErr (List (String × α))) (id : String)
    (hne : ∀ m k d m2, k ≠ id → step m k d = .ok m2 →
      mapLookup id m2 = mapLookup id m)
    (hnull : ∀ m m2, step m id .null = .ok m2 → mapLookup id m2 = none) :
    ∀ (l : List (String × JsonVal π)) (m : List (String × α)),
      (∀ p, (id, JsonVal.payload p) ∉ l) → mapLookup id m = none →
      mapLookup id (processEntries step m l).1 = none := by
  intro l
  induction l with
  | nil => intro m _ hm; exact hm
  | cons kd rest ih =>
    intro m hl hm
    obtain ⟨k, d⟩ := kd
    show mapLookup id (match step m k d with
      | .error e => (m, some e)
      | .ok m2 => processEntries step m2 rest).1 = none
    have hrest : ∀ p, (id, JsonVal.payload p) ∉ rest := by
      intro p hp
      exact hl p (List.mem_cons_of_mem _ hp)
    cases hs : step m k d with
    | error e => exact hm
    | ok m2 =>
      by_cases hk : k = id
      · subst hk
        cases d with
        | null => exact ih m2 hrest (hnull m m2 hs)
        | payload p => exact absurd (List.mem_cons_self _ _) (hl p)
      · exact ih m2 hrest (by rw [hne m k d m2 hk hs]; exact hm)

theorem processEntries_removes {α π : Type}
    (step : List (String × α) → String → JsonVal π →
      Except SerdeErr (List (String × α))) (id : String)
    (hne : ∀ m k d m2, k ≠ id → step m k d = .ok m2 →
      mapLookup id m2 = mapLookup id m)
    (hnull : ∀ m m2, step m id .null = .ok m2 → mapLookup id m2 = none) :
    ∀ (l : List (String × JsonVal π)) (m : List (String × α)),
      (id, JsonVal.null) ∈ l → (l.map Prod.fst).Nodup →
      (processEntries step m l).2 = none →
      mapLookup id (processEntries step m l).1 = none := by
  intro l
  induction l with
  | nil => intro m hmem; cases hmem
  | cons kd rest ih =>
    intro m hmem hnd hok
    obtain ⟨k, d⟩ := kd
    have hpe : processEntries step m ((k, d) :: rest)
        = match step m k d with
          | .error e => (m, some e)
          | .ok m2 => processEntries step m2 rest := rfl
    cases hs : step m k d with
    | error e =>
      rw [hpe, hs] at hok
      cases hok
    | ok m2 =>
      rw [hpe, hs] at hok ⊢
      simp only [List.map_cons, List.nodup_cons] at hnd
      rcases List.mem_cons.mp hmem with heq | hmem2
      · have hk : id = k := congrArg Prod.fst heq
        have hd : JsonVal.null = d := congrArg Prod.snd heq
        subst hk
        subst hd
        have hrest : ∀ kd2 ∈ rest, kd2.1 ≠ id := by
          intro kd2 hm hkeq
          exact hnd.1 (hkeq ▸ List.mem_map_of_mem Prod.fst hm)
        rw [processEntries_pres_ne step id hne rest m2 hrest]
        exact hnull m m2 hs
      · have hk : k ≠ id := by
          intro hkeq
          apply hnd.1
          rw [hkeq]
          exact List.mem_map_of_mem Prod.fst hmem2
        exact ih m2 hmem2 hnd.2 hok

theorem withTime_objects (r : Room) (t : Option Nat) :
    (r.withTime t).objects = r.objects := by
  cases t <;> rfl

theorem withTime_users (r : Room) (t : Option Nat) :
    (r.withTime t).users = r.users := by
  cases t <;> rfl

theorem withTime_flags (r : Room) (t : Option Nat) :
    (r.withTime t).flags = r.flags := by
  cases t <;> rfl

theorem update_objects_eq (r : Room) (u : RoomUpdate) :
    (Room.update r u).1.objects
      = (processEntries applyObjOp r.objects u.objects).1 := by
  unfold Room.update
  rw [withTime_objects]
  cases hpe : processEntries applyObjOp r.objects u.objects with
  | mk m e =>
    cases e with
    | some e2 => rfl
    | none =>
      cases hpu : processEntries applyUserOp (r.withTime u.game_time).users
          (u.users.getD []) with
      | mk mu eu => cases eu <;> rfl

theorem update_ok_objects (r : Room) (u : RoomUpdate)
    (h : (Room.update r u).2 = none) :
    (processEntries applyObjOp r.objects u.objects).2 = none := by
  unfold Room.update at h
  rw [withTime_objects] at h
  cases hpe : processEntries applyObjOp r.objects u.objects with
  | mk m e =>
    rw [hpe] at h
    cases e with
    | none => rfl
    | some e2 => simp at h

theorem update_flags_eq (r : Room) (u : RoomUpdate)
    (hobj : (processEntries applyObjOp r.objects u.objects).2 = none) :
    (Room.update r u).1.flags = u.flags := by
  unfold Room.update
  rw [withTime_objects]
  cases hpe : processEntries applyObjOp r.objects u.objects with
  | mk m e =>
    rw [hpe] at hobj
    cases e with
    | some e2 => simp at hobj
    | none =>
      cases hpu : processEntries applyUserOp (r.withTime u.game_time).users
          (u.users.getD []) with
      | mk mu eu => cases eu <;> rfl

theorem update_users_eq (r : Room) (u : RoomUpdate)
    (hobj : (processEntries applyObjOp r.objects u.objects).2 = none) :
    (Room.update r u).1.users
      = (processEntries applyUserOp r.users (u.users.getD [])).1 := by
  unfold Room.update
  rw [withTime_objects, withTime_users]
  cases hpe : processEntries applyObjOp r.objects u.objects with
  | mk m e =>
    rw [hpe] at hobj
    cases e with
    | some e2 => simp at hobj
    | none =>
      cases hpu : processEntries applyUserOp r.users (u.users.getD []) with
      | mk mu eu => cases eu <;> rfl

theorem update_ok_users (r : Room) (u : RoomUpdate)
    (h : (Room.update r u).2 = none) :
    (processEntries applyUserOp r.users (u.users.getD [])).2 = none := by
  unfold Room.update at h
  rw [withTime_objects, withTime_users] at h
  cases hpe : processEntries applyObjOp r.objects u.objects with
  | mk m e =>
    rw [hpe] at h
    cases e with
    | some e2 => simp at h
    | none =>
      cases hpu : processEntries applyUserOp r.users (u.users.getD []) with
      | mk mu eu =>
        rw [hpu] at h
        cases eu with
        | none => rfl
        | some e2 => simp at h

theorem update_removes_obj (r : Room) (u : RoomUpdate) (id : String)
    (hmem : (id, JsonVal.null) ∈ u.objects)
    (hnd : (u.objects.map Prod.fst).Nodup)
    (hok : (Room.update r u).2 = none) :
    mapLookup id (Room.update r u).1.objects = none := by
  rw [update_objects_eq]
  exact processEntries_removes applyObjOp id
    (fun m k d m2 hk hs => applyObjOp_lookup_ne id k hk m m2 d hs)
    (fun m m2 hs => applyObjOp_null_self id m m2 hs)
    u.objects r.objects hmem hnd (update_ok_objects r u hok)

theorem update_keeps_obj_none (r : Room) (u : RoomUpdate) (id : String)
    (hnone : mapLookup id r.objects = none)
    (hno : ∀ p, (id, JsonVal.payload p) ∉ u.objects) :
    mapLookup id (Room.update r u).1.objects = none := by
  rw [update_objects_eq]
  exact processEntries_keep_none applyObjOp id
    (fun m k d m2 hk hs => applyObjOp_lookup_ne id k hk m m2 d hs)
    (fun m m2 hs => applyObjOp_null_self id m m2 hs)
    u.objects r.objects hno hnone

/-- C6: a completed delta application replaces the flag list of the room
wholesale with the flag list of the delta, with no per-flag merge; in
particular a delta carrying an empty flag list leaves the flags
empty regardless of the flags held before the call. -/
theorem claim_C6_flags_replaced (r : Room) (u : RoomUpdate)
    (hok : (Room.update r u).2 = none) :
    (Room.update r u).1.flags = u.flags :=
  update_flags_eq r u (update_ok_objects r u hok)

/-- Witness for C6: a room with a flag, a delta with an empty flag list;
after the update the flag list of the room is empty. -/
theorem claim_C6_witness :
    (Room.update c6Room c6Delta).1.flags = c6Delta.flags :=
  claim_C6_flags_replaced c6Room c6Delta (by decide)

/-- C9: constructing a room with a terrain whose declared room name
differs from the `RoomId` room name fails (the `assert_eq!` panic,
modelled as `none`), so no partially-valid room is produced; when the
names agree the construction succeeds with empty object, flag and user
collections and no timestamp. -/
theorem claim_C9_ctor (rid : RoomId) (t : RoomTerrain) :
    ((Room.new rid t).isSome ↔ rid.room_name = t.room_name) ∧
    (∀ room0, Room.new rid t = some room0 →
      room0.room = rid ∧ room0.terrain = t ∧ room0.last_update_time = none ∧
      room0.objects = [] ∧ room0.flags = [] ∧ room0.users = []) := by
  unfold Room.new
  by_cases h : rid.room_name = t.room_name
  · constructor
    · simp [h]
    · intro room0 hr
      rw [if_pos h] at hr
      injection hr with hr2
      subst hr2
      exact ⟨rfl, rfl, rfl, rfl, rfl, rfl⟩
  · constructor
    · simp [h]
    · intro room0 hr
      rw [if_neg h] at hr
      cases hr

/-- Witness for C9: equal names make construction succeed. -/
theorem claim_C9_witness :
    (Room.new ⟨none, ⟨ "W0N0" ⟩⟩ ⟨⟨ "W0N0" ⟩, []⟩).isSome :=
  (claim_C9_ctor ⟨none, ⟨ "W0N0" ⟩⟩ ⟨⟨ "W0N0" ⟩, []⟩).1.mpr rfl

/-- C4: the merger is not transactional.  For every starting room not
holding the id c1, applying `c4Delta` (timestamp, a good object payload,
a flag list, then a malformed user payload) returns the deserialization
error, yet the timestamp, the object inserted earlier in the same call
and the replaced flag list all remain updated in the room. -/
theorem claim_C4_not_transactional (r : Room)
    (hid : mapLookup "c1" r.objects = none) :
    (Room.update r c4Delta).2 = some SerdeErr.malformed ∧
    (Room.update r c4Delta).1.last_update_time = some 42 ∧
    mapLookup "c1" (Room.update r c4Delta).1.objects
      = some ⟨RoomObjectType.Creep, "c1", 1, 1, 0⟩ ∧
    (Room.update r c4Delta).1.flags = [⟨ "F", 3, 4 ⟩] := by
  have hstep : applyObjOp r.objects "c1"
      (JsonVal.payload ⟨false, some RoomObjectType.Creep, some "c1", some 1, some 1, none⟩)
      = .ok (r.objects ++ [( "c1", ⟨RoomObjectType.Creep, "c1", 1, 1, 0⟩)]) := by
    simp [applyObjOp, hid, ObjPayload.deserialize]
  have hpe : processEntries applyObjOp r.objects c4Delta.objects
      = (r.objects ++ [( "c1", ⟨RoomObjectType.Creep, "c1", 1, 1, 0⟩)], none) := by
    show processEntries applyObjOp r.objects
        [( "c1", JsonVal.payload ⟨false, some RoomObjectType.Creep, some "c1", some 1, some 1, none⟩)]
      = (r.objects ++ [( "c1", ⟨RoomObjectType.Creep, "c1", 1, 1, 0⟩)], none)
    simp only [processEntries, hstep]
  have hpu : processEntries applyUserOp r.users (c4Delta.users.getD [])
      = (r.users, some SerdeErr.malformed) := by
    show processEntries applyUserOp r.users
        [( "u1", JsonVal.payload ⟨true, none, none⟩)]
      = (r.users, some SerdeErr.malformed)
    cases hl : mapLookup "u1" r.users with
    | some i => simp [processEntries, applyUserOp, hl, UserPayload.deserializeUpdate]
    | none => simp [processEntries, applyUserOp, hl, UserPayload.deserialize]
  have hupd : Room.update r c4Delta
      = ({ r.withTime (some 42) with
            objects := r.objects ++ [( "c1", ⟨RoomObjectType.Creep, "c1", 1, 1, 0⟩)],
            flags := [⟨ "F", 3, 4 ⟩],
            users := r.users }, some SerdeErr.malformed) := by
    unfold Room.update
    rw [withTime_objects, withTime_users, hpe, hpu]
    rfl
  rw [hupd]
  refine ⟨rfl, rfl, ?_, rfl⟩
  show mapLookup "c1" (r.objects ++ [( "c1", ⟨RoomObjectType.Creep, "c1", 1, 1, 0⟩)])
      = some ⟨RoomObjectType.Creep, "c1", 1, 1, 0⟩
  rw [mapLookup_append, hid]
  simp [mapLookup]

/-- Witness for C4: the theorem applied to the empty room. -/
theorem claim_C4_witness :
    (Room.update emptyRoom c4Delta).2 = some SerdeErr.malformed ∧
    (Room.update emptyRoom c4Delta).1.last_update_time = some 42 ∧
    mapLookup "c1" (Room.update emptyRoom c4Delta).1.objects
      = some ⟨RoomObjectType.Creep, "c1", 1, 1, 0⟩ ∧
    (Room.update emptyRoom c4Delta).1.flags = [⟨ "F", 3, 4 ⟩] :=
  claim_C4_not_transactional emptyRoom (by rfl)

theorem getD_getD {β : Type} (a : Option β) (x : β) :
    a.getD (a.getD x) = a.getD x := by
  cases a <;> rfl

theorem obj_update_idem (o o2 : KnownRoomObject) (p : ObjPayload)
    (h : o.update p = .ok o2) : o2.update p = .ok o2 := by
  unfold KnownRoomObject.update at h ⊢
  by_cases hbad : p.bad
  · simp [hbad] at h
  · simp only [hbad, Bool.false_eq_true, if_false, Except.ok.injEq] at h ⊢
    rw [← h]
    simp [getD_getD]

theorem deserialize_update_idem (p : ObjPayload) (ent : KnownRoomObject)
    (h : p.deserialize = .ok ent) : ent.update p = .ok ent := by
  unfold ObjPayload.deserialize at h
  by_cases hbad : p.bad
  · simp [hbad] at h
  · simp only [hbad, Bool.false_eq_true, if_false] at h
    cases hty : p.ty with
    | none => rw [hty] at h; cases h
    | some tv =>
      cases hid2 : p.id with
      | none => rw [hty, hid2] at h; cases h
      | some iv =>
        cases hx : p.x with
        | none => rw [hty, hid2, hx] at h; cases h
        | some xv =>
          cases hy : p.y with
          | none => rw [hty, hid2, hx, hy] at h; cases h
          | some yv =>
            rw [hty, hid2, hx, hy] at h
            injection h with h2
            rw [← h2]
            unfold KnownRoomObject.update
            rw [if_neg (by simp [hbad])]
            rw [hty, hid2, hx, hy, getD_getD]
            rfl

theorem objstep_idem (m : List (String × KnownRoomObject)) (id : String)
    (p : ObjPayload) :
    mapLookup id (processEntries applyObjOp
        (processEntries applyObjOp m [(id, JsonVal.payload p)]).1
        [(id, JsonVal.payload p)]).1
      = mapLookup id (processEntries applyObjOp m [(id, JsonVal.payload p)]).1 := by
  cases hl : mapLookup id m with
  | some o =>
    cases hup : o.update p with
    | error e =>
      have hstep : applyObjOp m id (JsonVal.payload p) = .error e := by
        simp [applyObjOp, hl, hup]
      have hfull1 : processEntries applyObjOp m [(id, JsonVal.payload p)]
          = (m, some e) := by
        simp only [processEntries, hstep]
      rw [hfull1]
      show mapLookup id (processEntries applyObjOp m [(id, JsonVal.payload p)]).1
        = mapLookup id m
      rw [hfull1]
    | ok o2 =>
      have hstep : applyObjOp m id (JsonVal.payload p) = .ok (mapSet id o2 m) := by
        simp [applyObjOp, hl, hup]
      have hl2 : mapLookup id (mapSet id o2 m) = some o2 :=
        mapLookup_mapSet_self id o2 m o hl
      have hup2 : o2.update p = .ok o2 := obj_update_idem o o2 p hup
      have hstep2 : applyObjOp (mapSet id o2 m) id (JsonVal.payload p)
          = .ok (mapSet id o2 (mapSet id o2 m)) := by
        simp [applyObjOp, hl2, hup2]
      have hfull1 : processEntries applyObjOp m [(id, JsonVal.payload p)]
          = (mapSet id o2 m, none) := by
        simp only [processEntries, hstep]
      have hfull2 : processEntries applyObjOp (mapSet id o2 m)
          [(id, JsonVal.payload p)] = (mapSet id o2 (mapSet id o2 m), none) := by
        simp only [processEntries, hstep2]
      rw [hfull1]
      show mapLookup id (processEntries applyObjOp (mapSet id o2 m)
        [(id, JsonVal.payload p)]).1 = mapLookup id (mapSet id o2 m)
      rw [hfull2]
      show mapLookup id (mapSet id o2 (mapSet id o2 m)) = mapLookup id (mapSet id o2 m)
      rw [mapLookup_mapSet_self id o2 (mapSet id o2 m) o2 hl2, hl2]
  | none =>
    cases hde : p.deserialize with
    | error e =>
      have hstep : applyObjOp m id (JsonVal.payload p) = .error e := by
        simp [applyObjOp, hl, hde]
      have hfull1 : processEntries applyObjOp m [(id, JsonVal.payload p)]
          = (m, some e) := by
        simp only [processEntries, hstep]
      rw [hfull1]
      show mapLookup id (processEntries applyObjOp m [(id, JsonVal.payload p)]).1
        = mapLookup id m
      rw [hfull1]
    | ok ent =>
      have hstep : applyObjOp m id (JsonVal.payload p) = .ok (m ++ [(id, ent)]) := by
        simp [applyObjOp, hl, hde]
      have hl2 : mapLookup id (m ++ [(id, ent)]) = some ent := by
        rw [mapLookup_append, hl]
        simp [mapLookup]
      have hup2 : ent.update p = .ok ent := deserialize_update_idem p ent hde
      have hstep2 : applyObjOp (m ++ [(id, ent)]) id (JsonVal.payload p)
          = .ok (mapSet id ent (m ++ [(id, ent)])) := by
        simp [applyObjOp, hl2, hup2]
      have hfull1 : processEntries applyObjOp m [(id, JsonVal.payload p)]
          = (m ++ [(id, ent)], none) := by
        simp only [processEntries, hstep]
      have hfull2 : processEntries applyObjOp (m ++ [(id, ent)])
          [(id, JsonVal.payload p)] = (mapSet id ent (m ++ [(id, ent)]), none) := by
        simp only [processEntries, hstep2]
      rw [hfull1]
      show mapLookup id (processEntries applyObjOp (m ++ [(id, ent)])
        [(id, JsonVal.payload p)]).1 = mapLookup id (m ++ [(id, ent)])
      rw [hfull2]
      show mapLookup id (mapSet id ent (m ++ [(id, ent)]))
        = mapLookup id (m ++ [(id, ent)])
      rw [mapLookup_mapSet_self id ent (m ++ [(id, ent)]) ent hl2, hl2]

/-- C7: applying a delta whose object set consists of one non-null
payload for an id twice in a row leaves the same entity state for that
id as applying it once: the second application merges the payload into
the entity produced by the first and changes nothing. -/
theorem claim_C7_idempotent (r : Room) (id : String) (p : ObjPayload)
    (u : RoomUpdate) (hobj : u.objects = [(id, JsonVal.payload p)]) :
    mapLookup id (Room.update (Room.update r u).1 u).1.objects
      = mapLookup id (Room.update r u).1.objects := by
  rw [update_objects_eq ((Room.update r u).1) u, update_objects_eq r u, hobj]
  exact objstep_idem r.objects id p

/-- Witness for C7: the theorem applied to the empty room and a concrete
road payload. -/
theorem claim_C7_witness :
    mapLookup "a1" (Room.update (Room.update emptyRoom c7Delta).1 c7Delta).1.objects
      = mapLookup "a1" (Room.update emptyRoom c7Delta).1.objects :=
  claim_C7_idempotent emptyRoom "a1"
    ⟨false, some RoomObjectType.Road, some "a1", some 2, some 2, some 5⟩
    c7Delta (by rfl)

theorem mapRemove_of_lookup_none {α : Type} (id : String)
    (m : List (String × α)) (h : mapLookup id m = none) :
    mapRemove id m = m := by
  induction m with
  | nil => rfl
  | cons kv rest ih =>
    by_cases hk : kv.1 = id
    · simp [mapLookup, hk] at h
    · simp only [mapLookup, hk, ite_false] at h
      simp [mapRemove, hk, ih h]

/-- C8: user-set merge semantics mirror object semantics.  A delta whose
user set is absent at the top level changes no users and is not an
error; when the user set is present and the call succeeds, a null value
deletes the user id; a present payload merges into an existing entry or
inserts a new one; and a null for an absent id is a no-op. -/
theorem claim_C8_user_semantics :
    (∀ (r : Room) (u : RoomUpdate), u.users = none → u.objects = [] →
      (Room.update r u).1.users = r.users ∧ (Room.update r u).2 = none) ∧
    (∀ (r : Room) (u : RoomUpdate) (id : String)
        (us : List (String × JsonVal UserPayload)),
      u.users = some us → (id, JsonVal.null) ∈ us →
      (us.map Prod.fst).Nodup → (Room.update r u).2 = none →
      mapLookup id (Room.update r u).1.users = none) ∧
    (∀ (m : List (String × RoomUserInfo)) (id : String) (p : UserPayload),
      p.bad = false →
      (mapLookup id m = none →
        applyUserOp m id (.payload p)
          = .ok (m ++ [(id, ⟨p.username, p.badge⟩)])) ∧
      (∀ i, mapLookup id m = some i →
        applyUserOp m id (.payload p)
          = .ok (mapSet id (i.update ⟨p.username, p.badge⟩) m))) ∧
    (∀ (m : List (String × RoomUserInfo)) (id : String),
      applyUserOp m id .null = .ok (mapRemove id m) ∧
      (mapLookup id m = none → mapRemove id m = m)) := by
  refine ⟨?_, ?_, ?_, ?_⟩
  · intro r u hu ho
    unfold Room.update
    rw [withTime_objects, withTime_users, ho, hu]
    exact ⟨rfl, rfl⟩
  · intro r u id us hus hmem hnd hok
    rw [update_users_eq r u (update_ok_objects r u hok)]
    have hok2 := update_ok_users r u hok
    rw [hus] at hok2 ⊢
    exact processEntries_removes applyUserOp id
      (fun m k d m2 hk hs => applyUserOp_lookup_ne id k hk m m2 d hs)
      (fun m m2 hs => applyUserOp_null_self id m m2 hs)
      us r.users hmem hnd hok2
  · intro m id p hbad
    constructor
    · intro hl
      simp [applyUserOp, hl, UserPayload.deserialize, hbad]
    · intro i hl
      simp [applyUserOp, hl, UserPayload.deserializeUpdate, hbad]
  · intro m id
    exact ⟨rfl, mapRemove_of_lookup_none id m⟩

/-- Witness for C8: a delta with no user set leaves the users of a
concrete room unchanged and reports no error. -/
theorem claim_C8_witness :
    (Room.update c6Room c8Delta).1.users = c6Room.users ∧
    (Room.update c6Room c8Delta).2 = none :=
  claim_C8_user_semantics.1 c6Room c8Delta (by rfl) (by rfl)

theorem lget_some_lt {α : Type} (l : List α) (n : Nat) (a : α)
    (h : l.get? n = some a) : n < l.length := by
  induction l generalizing n with
  | nil => cases h
  | cons b bs ih =>
    cases n with
    | zero => simp
    | succ k => exact Nat.succ_lt_succ (ih k h)

theorem lget_mem {α : Type} (l : List α) (n : Nat) (a : α)
    (h : l.get? n = some a) : a ∈ l := by
  induction l generalizing n with
  | nil => cases h
  | cons b bs ih =>
    cases n with
    | zero =>
      injection h with h2
      rw [h2]; exact List.mem_cons_self _ _
    | succ k => exact List.mem_cons_of_mem _ (ih k h)

theorem lget_set_self {α : Type} (l : List α) (i : Nat) (a : α)
    (h : i < l.length) : (l.set i a).get? i = some a := by
  induction l generalizing i with
  | nil => cases h
  | cons b bs ih =>
    cases i with
    | zero => rfl
    | succ k => exact ih k (Nat.lt_of_succ_lt_succ h)

theorem lget_set_ne {α : Type} (l : List α) (i j : Nat) (a : α)
    (h : i ≠ j) : (l.set i a).get? j = l.get? j := by
  induction l generalizing i j with
  | nil => rfl
  | cons b bs ih =>
    cases i with
    | zero =>
      cases j with
      | zero => exact absurd rfl h
      | succ k => rfl
    | succ ki =>
      cases j with
      | zero => rfl
      | succ kj => exact ih ki kj (fun he => h (congrArg Nat.succ he))

theorem lget_map {α β : Type} (f : α → β) (l : List α) (n : Nat) :
    (l.map f).get? n = (l.get? n).map f := by
  induction l generalizing n with
  | nil => cases n <;> rfl
  | cons b bs ih =>
    cases n with
    | zero => rfl
    | succ k => exact ih k

theorem lget_replicate {α : Type} (n i : Nat) (a : α) :
    (List.replicate n a).get? i = if i < n then some a else none := by
  induction n generalizing i with
  | zero => cases i <;> rfl
  | succ k ih =>
    cases i with
    | zero => simp [List.replicate]
    | succ m =>
      show (List.replicate k a).get? m = _
      rw [ih m]
      by_cases hm : m < k
      · simp [hm, Nat.succ_lt_succ hm]
      · have : ¬ m + 1 < k + 1 := fun hc => hm (Nat.lt_of_succ_lt_succ hc)
        simp [hm, this]

theorem lgetD_eq {α : Type} (l : List α) (i : Nat) (d : α) :
    l.getD i d
      = match l.get? i with
        | some a => a
        | none => d := by
  induction l generalizing i with
  | nil => cases i <;> rfl
  | cons b bs ih =>
    cases i with
    | zero => rfl
    | succ k =>
      show bs.getD k d = _
      exact ih k

theorem lgetD_of_get? {α : Type} (l : List α) (i : Nat) (a d : α)
    (h : l.get? i = some a) : l.getD i d = a := by
  rw [lgetD_eq, h]

theorem lgetD_of_get?_none {α : Type} (l : List α) (i : Nat) (d : α)
    (h : l.get? i = none) : l.getD i d = d := by
  rw [lgetD_eq, h]

theorem WF_new (t : Option Nat) (rid : RoomId) : (VisualRoom.new t rid).WF := by
  constructor
  · exact List.length_replicate 50 _
  · intro col hcol
    rw [List.eq_of_mem_replicate hcol]
    exact List.length_replicate 50 _

theorem cellOf_new (t : Option Nat) (rid : RoomId) (i j : Nat) :
    cellOf (VisualRoom.new t rid) i j = [] := by
  show ((List.replicate 50 (List.replicate 50 ([] : List VisualObject))).getD
    i []).getD j [] = []
  by_cases hi : i < 50
  · rw [lgetD_of_get? _ i (List.replicate 50 ([] : List VisualObject)) []
      (by rw [lget_replicate]; rw [if_pos hi])]
    by_cases hj : j < 50
    · rw [lgetD_of_get? _ j ([] : List VisualObject) []
        (by rw [lget_replicate]; rw [if_pos hj])]
    · rw [lgetD_of_get?_none _ j []
        (by rw [lget_replicate]; rw [if_neg hj])]
  · rw [lgetD_of_get?_none _ i []
      (by rw [lget_replicate]; rw [if_neg hi])]
    rfl

theorem push_top_cases (v : VisualRoom) (item : VisualObject)
    (v2 : VisualRoom) (h : v.push_top item = some v2) :
    ∃ col stack, v.objs.get? (VisualObject.x item) = some col ∧
      col.get? (VisualObject.y item) = some stack ∧
      v2.objs = v.objs.set (VisualObject.x item)
        (col.set (VisualObject.y item) (stack ++ [item])) := by
  cases hcol : v.objs.get? (VisualObject.x item) with
  | none =>
    unfold VisualRoom.push_top at h
    rw [hcol] at h
    cases h
  | some col =>
    cases hstack : col.get? (VisualObject.y item) with
    | none =>
      simp only [VisualRoom.push_top, hcol, hstack] at h
      cases h
    | some stack =>
      simp only [VisualRoom.push_top, hcol, hstack] at h
      injection h with h2
      exact ⟨col, stack, rfl, hstack, by rw [← h2]⟩

theorem push_top_inrange (v : VisualRoom) (item : VisualObject)
    (v2 : VisualRoom) (hwf : v.WF) (h : v.push_top item = some v2) :
    (VisualObject.x item < 50 ∧ VisualObject.y item < 50) ∧ v2.WF := by
  obtain ⟨col, stack, hcol, hstack, hv2⟩ := push_top_cases v item v2 h
  have hx : VisualObject.x item < 50 := hwf.1 ▸ lget_some_lt _ _ _ hcol
  have hcolwf : col.length = 50 := hwf.2 col (lget_mem _ _ _ hcol)
  have hy : VisualObject.y item < 50 := hcolwf ▸ lget_some_lt _ _ _ hstack
  unfold VisualRoom.WF
  refine ⟨⟨hx, hy⟩, ?_, ?_⟩
  · rw [hv2, List.length_set]
    exact hwf.1
  · intro col2 hcol2
    rw [hv2] at hcol2
    rcases List.mem_or_eq_of_mem_set hcol2 with hmem | heq
    · exact hwf.2 col2 hmem
    · rw [heq, List.length_set]
      exact hcolwf

theorem push_top_cells (v : VisualRoom) (item : VisualObject)
    (v2 : VisualRoom) (h : v.push_top item = some v2) (i j : Nat)
    (o : VisualObject) (hm : o ∈ cellOf v2 i j) :
    o ∈ cellOf v i j ∨
      (o = item ∧ i = VisualObject.x item ∧ j = VisualObject.y item) := by
  obtain ⟨col, stack, hcol, hstack, hv2⟩ := push_top_cases v item v2 h
  unfold cellOf at hm ⊢
  rw [hv2] at hm
  by_cases hi : i = VisualObject.x item
  · subst hi
    rw [lgetD_of_get? _ (VisualObject.x item)
      (col.set (VisualObject.y item) (stack ++ [item])) []
      (lget_set_self _ _ _ (lget_some_lt _ _ _ hcol))] at hm
    rw [lgetD_of_get? _ (VisualObject.x item) col [] hcol]
    by_cases hj : j = VisualObject.y item
    · subst hj
      rw [lgetD_of_get? _ (VisualObject.y item) (stack ++ [item]) []
        (lget_set_self _ _ _ (lget_some_lt _ _ _ hstack))] at hm
      rw [lgetD_of_get? _ (VisualObject.y item) stack [] hstack]
      rcases List.mem_append.mp hm with hmem | hmem
      · exact Or.inl hmem
      · exact Or.inr ⟨List.mem_singleton.mp hmem, rfl, rfl⟩
    · rw [lgetD_eq _ j [], lget_set_ne _ _ j _ (fun he => hj he.symm),
        ← lgetD_eq col j []] at hm
      exact Or.inl hm
  · rw [lgetD_eq _ i [], lget_set_ne _ _ i _ (fun he => hi he.symm),
      ← lgetD_eq v.objs i []] at hm
    exact Or.inl hm

theorem foldlM_opt_forall {α β : Type} (f : β → α → Option β) (W : β → Prop)
    (P : α → Prop) (l : List α)
    (hstep : ∀ b a b2, a ∈ l → W b → f b a = some b2 → W b2 ∧ P a) :
    ∀ b out, W b → l.foldlM f b = some out → (∀ a ∈ l, P a) ∧ W out := by
  induction l with
  | nil =>
    intro b out hw h
    simp only [List.foldlM_nil] at h
    injection h with h2
    exact ⟨(by intro a ha; cases ha), h2 ▸ hw⟩
  | cons a as ih =>
    intro b out hw h
    simp only [List.foldlM_cons] at h
    cases hfa : f b a with
    | none => rw [hfa] at h; cases h
    | some b2 =>
      rw [hfa] at h
      simp only [Option.bind_eq_bind, Option.some_bind] at h
      obtain ⟨hW2, hP⟩ := hstep b a b2 (List.mem_cons_self _ _) hw hfa
      obtain ⟨hall, hout⟩ := ih
        (fun b3 a2 b4 ha2 => hstep b3 a2 b4 (List.mem_cons_of_mem _ ha2))
        b2 out hW2 h
      refine ⟨?_, hout⟩
      intro a2 ha2
      rcases List.mem_cons.mp ha2 with heq | hmem
      · rw [heq]; exact hP
      · exact hall a2 hmem

theorem mem_insertSorted (a b : VisualObject) (l : List VisualObject) :
    a ∈ insertSorted b l ↔ a = b ∨ a ∈ l := by
  induction l with
  | nil => simp [insertSorted]
  | cons c cs ih =>
    unfold insertSorted
    by_cases hc : VisualObject.cmp b c = .gt
    · rw [if_pos hc]
      simp only [List.mem_cons, ih]
      tauto
    · rw [if_neg hc]
      exact List.mem_cons

theorem mem_sortStack (a : VisualObject) (l : List VisualObject) :
    a ∈ sortStack l ↔ a ∈ l := by
  induction l with
  | nil => simp [sortStack]
  | cons c cs ih =>
    show a ∈ insertSorted c (sortStack cs) ↔ _
    rw [mem_insertSorted, ih, List.mem_cons]

theorem mem_cellOf_sorted (v3 : VisualRoom) (i j : Nat) (o : VisualObject) :
    o ∈ cellOf { v3 with
        objs := v3.objs.map (fun col => col.map sortStack) } i j
      ↔ o ∈ cellOf v3 i j := by
  show o ∈ ((v3.objs.map (fun col => col.map sortStack)).getD i []).getD j []
    ↔ o ∈ (v3.objs.getD i []).getD j []
  cases hci : v3.objs.get? i with
  | none =>
    have h1 : (v3.objs.map (fun col => col.map sortStack)).get? i = none := by
      rw [lget_map, hci]; rfl
    rw [lgetD_of_get?_none v3.objs i [] hci, lgetD_of_get?_none _ i [] h1]
  | some col =>
    have h1 : (v3.objs.map (fun col => col.map sortStack)).get? i
        = some (col.map sortStack) := by
      rw [lget_map, hci]; rfl
    rw [lgetD_of_get? v3.objs i col [] hci,
      lgetD_of_get? _ i (col.map sortStack) [] h1]
    cases hcj : col.get? j with
    | none =>
      have h2 : (col.map sortStack).get? j = none := by
        rw [lget_map, hcj]; rfl
      rw [lgetD_of_get?_none col j [] hcj, lgetD_of_get?_none _ j [] h2]
    | some stack =>
      have h2 : (col.map sortStack).get? j = some (sortStack stack) := by
        rw [lget_map, hcj]; rfl
      rw [lgetD_of_get? col j stack [] hcj,
        lgetD_of_get? _ j (sortStack stack) [] h2]
      exact mem_sortStack o stack

theorem visualize_elim (r : Room) (v : VisualRoom)
    (h : r.visualize = some v) :
    ∃ v1 v2 v3,
      visTerrain r.terrain.terrain
        (VisualRoom.new r.last_update_time r.room) = some v1 ∧
      visFlags r.flags v1 = some v2 ∧
      visObjects r.objects v2 = some v3 ∧
      v = { v3 with objs := v3.objs.map (fun col => col.map sortStack) } := by
  unfold Room.visualize at h
  cases h1 : visTerrain r.terrain.terrain
      (VisualRoom.new r.last_update_time r.room) with
  | none => rw [h1] at h; cases h
  | some v1 =>
    rw [h1] at h
    cases h2 : visFlags r.flags v1 with
    | none =>
      simp only [h2] at h
      cases h
    | some v2 =>
      simp only [h2] at h
      cases h3 : visObjects r.objects v2 with
      | none =>
        simp only [h3] at h
        cases h
      | some v3 =>
        simp only [h3] at h
        injection h with h4
        exact ⟨v1, v2, v3, rfl, h2, h3, h4.symm⟩

theorem visTerrain_all (terrain : List (List TerrainType))
    (v v2 : VisualRoom) (hwf : v.WF) (h : visTerrain terrain v = some v2) :
    (∀ rc ∈ terrain.enum, ∀ cc ∈ rc.2.enum,
      (InterestingTerrainType.from_terrain cc.2).isSome →
        cc.1 < 50 ∧ rc.1 < 50) ∧ v2.WF := by
  unfold visTerrain at h
  refine foldlM_opt_forall _ VisualRoom.WF _ _ ?_ v v2 hwf h
  intro acc rc acc2 hmem hw hstep
  have hin := foldlM_opt_forall _ VisualRoom.WF
    (fun cc => (InterestingTerrainType.from_terrain cc.2).isSome →
      cc.1 < 50 ∧ rc.1 < 50)
    rc.2.enum ?_ acc acc2 hw hstep
  · exact ⟨hin.2, hin.1⟩
  · intro acc3 cc acc4 hmemc hw3 hs
    cases hft : InterestingTerrainType.from_terrain cc.2 with
    | none =>
      rw [hft] at hs
      injection hs with hs2
      refine ⟨hs2 ▸ hw3, ?_⟩
      intro hiss
      rw [hft] at hiss
      cases hiss
    | some itt =>
      rw [hft] at hs
      have := push_top_inrange acc3 (.InterestingTerrain cc.1 rc.1 itt) acc4 hw3 hs
      exact ⟨this.2, fun _ => this.1⟩

theorem visFlags_all (flags : List Flag) (v v2 : VisualRoom) (hwf : v.WF)
    (h : visFlags flags v = some v2) :
    (∀ f ∈ flags, f.x < 50 ∧ f.y < 50) ∧ v2.WF := by
  unfold visFlags at h
  refine foldlM_opt_forall _ VisualRoom.WF _ _ ?_ v v2 hwf h
  intro acc f acc2 hmem hw hs
  have := push_top_inrange acc (.Flag f) acc2 hw hs
  exact ⟨this.2, this.1⟩

theorem visObjects_all (objs : List (String × KnownRoomObject))
    (v v2 : VisualRoom) (hwf : v.WF) (h : visObjects objs v = some v2) :
    (∀ kv ∈ objs, kv.2.x < 50 ∧ kv.2.y < 50) ∧ v2.WF := by
  unfold visObjects at h
  refine foldlM_opt_forall _ VisualRoom.WF _ _ ?_ v v2 hwf h
  intro acc kv acc2 hmem hw hs
  have := push_top_inrange acc (.RoomObject kv.2) acc2 hw hs
  exact ⟨this.2, this.1⟩

/-- C5: an entity carrying a coordinate outside [0, 49] (in particular
x = 50 or y = 50) on a flag or object of the room, or an interesting
terrain cell indexed outside the grid, makes `visualize` abort with the
contract-violation panic (modelled as `none`): no visualization is
produced at all, so the offending entity is neither clamped to a valid
cell nor silently dropped. -/
theorem claim_C5_contract (r : Room)
    (h : (∃ f ∈ r.flags, 50 ≤ f.x ∨ 50 ≤ f.y) ∨
         (∃ kv ∈ r.objects, 50 ≤ kv.2.x ∨ 50 ≤ kv.2.y) ∨
         (∃ rc ∈ r.terrain.terrain.enum, ∃ cc ∈ rc.2.enum,
           (InterestingTerrainType.from_terrain cc.2).isSome ∧
           (50 ≤ cc.1 ∨ 50 ≤ rc.1))) :
    r.visualize = none := by
  cases hv : r.visualize with
  | none => rfl
  | some v =>
    exfalso
    obtain ⟨v1, v2, v3, h1, h2, h3, hveq⟩ := visualize_elim r v hv
    obtain ⟨hterr, hwf1⟩ := visTerrain_all _ _ _ (WF_new _ _) h1
    obtain ⟨hflag, hwf2⟩ := visFlags_all _ _ _ hwf1 h2
    obtain ⟨hobj, hwf3⟩ := visObjects_all _ _ _ hwf2 h3
    rcases h with ⟨f, hf, hbad⟩ | ⟨kv, hkv, hbad⟩ | ⟨rc, hrc, cc, hcc, hint, hbad⟩
    · rcases hbad with hb | hb
      · exact absurd (hflag f hf).1 (Nat.not_lt.mpr hb)
      · exact absurd (hflag f hf).2 (Nat.not_lt.mpr hb)
    · rcases hbad with hb | hb
      · exact absurd (hobj kv hkv).1 (Nat.not_lt.mpr hb)
      · exact absurd (hobj kv hkv).2 (Nat.not_lt.mpr hb)
    · rcases hbad with hb | hb
      · exact absurd ((hterr rc hrc cc hcc) hint).1 (Nat.not_lt.mpr hb)
      · exact absurd ((hterr rc hrc cc hcc) hint).2 (Nat.not_lt.mpr hb)

/-- Witness for C5: a room whose only flag sits at x = 50 visualizes to
`none`. -/
theorem claim_C5_witness : c5Room.visualize = none :=
  claim_C5_contract c5Room (Or.inl (by decide))

/-- C2: the scenario room (swamp at (1,1), wall at (2,2), flag Alpha at
(1,1), creep c1 at (1,1)) visualizes to a grid whose cell (1,1) stack is
exactly [swamp marker, flag Alpha, creep c1] in that order and whose
cell (2,2) stack is exactly [wall marker]. -/
theorem claim_C2_scenario :
    (Room.visualize c2Room).map (fun v => (cellOf v 1 1, cellOf v 2 2))
      = some ([.InterestingTerrain 1 1 .Swamp, .Flag ⟨ "Alpha", 1, 1 ⟩,
               .RoomObject ⟨.Creep, "c1", 1, 1, 0⟩],
              [.InterestingTerrain 2 2 .Wall]) := by
  decide

theorem push_top_placed (v : VisualRoom) (item : VisualObject)
    (v2 : VisualRoom) (h : v.push_top item = some v2) (hp : Placed v) :
    Placed v2 := by
  intro i j o hm
  rcases push_top_cells v item v2 h i j o hm with hmem | ⟨ho, hi, hj⟩
  · exact hp i j o hmem
  · subst ho; subst hi; subst hj
    exact ⟨rfl, rfl⟩

theorem visTerrain_placed (terrain : List (List TerrainType))
    (v v2 : VisualRoom) (h : visTerrain terrain v = some v2)
    (hp : Placed v) : Placed v2 := by
  unfold visTerrain at h
  refine (foldlM_opt_forall _ Placed (fun _ => True) _ ?_ v v2 hp h).2
  intro acc rc acc2 hmem hw hstep
  refine ⟨(foldlM_opt_forall _ Placed (fun _ => True) _ ?_ acc acc2 hw hstep).2,
    trivial⟩
  intro acc3 cc acc4 hmemc hw3 hs
  cases hft : InterestingTerrainType.from_terrain cc.2 with
  | none =>
    rw [hft] at hs
    injection hs with hs2
    exact ⟨hs2 ▸ hw3, trivial⟩
  | some itt =>
    rw [hft] at hs
    exact ⟨push_top_placed _ _ _ hs hw3, trivial⟩

theorem visFlags_placed (flags : List Flag) (v v2 : VisualRoom)
    (h : visFlags flags v = some v2) (hp : Placed v) : Placed v2 := by
  unfold visFlags at h
  refine (foldlM_opt_forall _ Placed (fun _ => True) _ ?_ v v2 hp h).2
  intro acc f acc2 hmem hw hs
  exact ⟨push_top_placed _ _ _ hs hw, trivial⟩

theorem visObjects_placed (objs : List (String × KnownRoomObject))
    (v v2 : VisualRoom) (h : visObjects objs v = some v2)
    (hp : Placed v) : Placed v2 := by
  unfold visObjects at h
  refine (foldlM_opt_forall _ Placed (fun _ => True) _ ?_ v v2 hp h).2
  intro acc kv acc2 hmem hw hs
  exact ⟨push_top_placed _ _ _ hs hw, trivial⟩

/-- C10: the spatial index of every visualization is self-consistent:
every `VisualObject` stored in the stack of grid cell [i, j] has x() = i
and y() = j. -/
theorem claim_C10_placement (r : Room) (v : VisualRoom)
    (h : r.visualize = some v) (i j : Nat) (o : VisualObject)
    (hm : o ∈ cellOf v i j) :
    VisualObject.x o = i ∧ VisualObject.y o = j := by
  obtain ⟨v1, v2, v3, h1, h2, h3, hveq⟩ := visualize_elim r v h
  have p0 : Placed (VisualRoom.new r.last_update_time r.room) := by
    intro i2 j2 o2 hmo
    rw [cellOf_new] at hmo
    cases hmo
  have p3 := visObjects_placed _ _ _ h3
    (visFlags_placed _ _ _ h2 (visTerrain_placed _ _ _ h1 p0))
  have hm3 : o ∈ cellOf v3 i j := by
    rw [hveq] at hm
    exact (mem_cellOf_sorted v3 i j o).mp hm
  exact p3 i j o hm3

/-- Witness for C10: the theorem applied to a room with one flag at
(1, 2). -/
theorem claim_C10_witness :
    VisualObject.x (.Flag ⟨ "F", 1, 2 ⟩) = 1 ∧
    VisualObject.y (.Flag ⟨ "F", 1, 2 ⟩) = 2 :=
  claim_C10_placement c10Room
    ((Room.visualize c10Room).getD (VisualRoom.new none c10Room.room))
    (by rfl) 1 2 (.Flag ⟨ "F", 1, 2 ⟩) (by decide)

theorem push_top_cellsSat (S : VisualObject → Prop) (v : VisualRoom)
    (item : VisualObject) (v2 : VisualRoom) (h : v.push_top item = some v2)
    (hitem : S item) (hv : CellsSat S v) : CellsSat S v2 := by
  intro i j o hm
  rcases push_top_cells v item v2 h i j o hm with hmem | ⟨ho, hi, hj⟩
  · exact hv i j o hmem
  · rw [ho]; exact hitem

theorem visTerrain_cellsSat (S : VisualObject → Prop)
    (hterr : ∀ x y itt, S (.InterestingTerrain x y itt))
    (terrain : List (List TerrainType)) (v v2 : VisualRoom)
    (h : visTerrain terrain v = some v2) (hv : CellsSat S v) :
    CellsSat S v2 := by
  unfold visTerrain at h
  refine (foldlM_opt_forall _ (CellsSat S) (fun _ => True) _ ?_ v v2 hv h).2
  intro acc rc acc2 hmem hw hstep
  refine ⟨(foldlM_opt_forall _ (CellsSat S) (fun _ => True) _ ?_
    acc acc2 hw hstep).2, trivial⟩
  intro acc3 cc acc4 hmemc hw3 hs
  cases hft : InterestingTerrainType.from_terrain cc.2 with
  | none =>
    rw [hft] at hs
    injection hs with hs2
    exact ⟨hs2 ▸ hw3, trivial⟩
  | some itt =>
    rw [hft] at hs
    exact ⟨push_top_cellsSat S _ _ _ hs (hterr cc.1 rc.1 itt) hw3, trivial⟩

theorem visFlags_cellsSat (S : VisualObject → Prop)
    (hflag : ∀ f, S (.Flag f)) (flags : List Flag) (v v2 : VisualRoom)
    (h : visFlags flags v = some v2) (hv : CellsSat S v) : CellsSat S v2 := by
  unfold visFlags at h
  refine (foldlM_opt_forall _ (CellsSat S) (fun _ => True) _ ?_ v v2 hv h).2
  intro acc f acc2 hmem hw hs
  exact ⟨push_top_cellsSat S _ _ _ hs (hflag f) hw, trivial⟩

theorem visObjects_cellsSat (S : VisualObject → Prop)
    (objs : List (String × KnownRoomObject))
    (hobj : ∀ kv ∈ objs, S (.RoomObject kv.2)) (v v2 : VisualRoom)
    (h : visObjects objs v = some v2) (hv : CellsSat S v) : CellsSat S v2 := by
  unfold visObjects at h
  refine (foldlM_opt_forall _ (CellsSat S) (fun _ => True) _ ?_ v v2 hv h).2
  intro acc kv acc2 hmem hw hs
  exact ⟨push_top_cellsSat S _ _ _ hs (hobj kv hmem) hw, trivial⟩

theorem visualize_objects_source (r : Room) (v : VisualRoom)
    (h : r.visualize = some v) (i j : Nat) (e : KnownRoomObject)
    (hm : VisualObject.RoomObject e ∈ cellOf v i j) :
    ∃ k, (k, e) ∈ r.objects := by
  obtain ⟨v1, v2, v3, h1, h2, h3, hveq⟩ := visualize_elim r v h
  have s0 : CellsSat (fun o => ∀ e2, o = VisualObject.RoomObject e2 →
      ∃ k, (k, e2) ∈ r.objects) (VisualRoom.new r.last_update_time r.room) := by
    intro i2 j2 o2 hmo
    rw [cellOf_new] at hmo
    cases hmo
  have s1 := visTerrain_cellsSat _ (fun x y itt => by intro e2 he; cases he)
    _ _ _ h1 s0
  have s2 := visFlags_cellsSat _ (fun f => by intro e2 he; cases he) _ _ _ h2 s1
  have s3 := visObjects_cellsSat _ r.objects
    (fun kv hkv => by
      intro e2 he
      injection he with he2
      exact ⟨kv.1, he2 ▸ (Prod.mk.eta ▸ hkv)⟩)
    _ _ h3 s2
  have hm3 : VisualObject.RoomObject e ∈ cellOf v3 i j := by
    rw [hveq] at hm
    exact (mem_cellOf_sorted v3 i j _).mp hm
  exact s3 i j _ hm3 e rfl

theorem foldl_updates_keep_none (id : String) (us : List RoomUpdate)
    (hnone2 : ∀ u2 ∈ us, ∀ p, (id, JsonVal.payload p) ∉ u2.objects) :
    ∀ s : Room, mapLookup id s.objects = none →
      mapLookup id
        (us.foldl (fun s2 u2 => (Room.update s2 u2).1) s).objects = none := by
  induction us with
  | nil => intro s hs; exact hs
  | cons u2 rest ih =>
    intro s hs
    show mapLookup id
      (rest.foldl (fun s2 u3 => (Room.update s2 u3).1) (Room.update s u2).1).objects
      = none
    exact ih (fun u3 hm => hnone2 u3 (List.mem_cons_of_mem _ hm))
      (Room.update s u2).1
      (update_keeps_obj_none s u2 id hs (hnone2 u2 (List.mem_cons_self _ _)))

/-- C3: a delta mapping an id to the explicit null marker removes that id
from the object mapping of the room (and removal of an absent id is a no-op
at the operation level); afterwards, through any sequence of further
deltas none of which carries a non-null payload for that id, the id
stays out of the mapping, and every room object drawn in any cell of any
visualization of those rooms is the value stored under some other key,
so the deleted entry contributes nothing to any later grid. -/
theorem claim_C3_null_deletes (r : Room) (u : RoomUpdate) (id : String)
    (hnull : (id, JsonVal.null) ∈ u.objects)
    (hnd : (u.objects.map Prod.fst).Nodup)
    (hok : (Room.update r u).2 = none) :
    mapLookup id (Room.update r u).1.objects = none ∧
    (∀ m : List (String × KnownRoomObject), mapLookup id m = none →
      applyObjOp m id JsonVal.null = .ok m) ∧
    (∀ us : List RoomUpdate,
      (∀ u2 ∈ us, ∀ p, (id, JsonVal.payload p) ∉ u2.objects) →
      mapLookup id
        (us.foldl (fun s u2 => (Room.update s u2).1) (Room.update r u).1).objects
        = none ∧
      ∀ v, (us.foldl (fun s u2 => (Room.update s u2).1)
          (Room.update r u).1).visualize = some v →
        ∀ i j e, VisualObject.RoomObject e ∈ cellOf v i j →
          ∃ k, (k, e) ∈ (us.foldl (fun s u2 => (Room.update s u2).1)
            (Room.update r u).1).objects ∧ k ≠ id) := by
  have hrem := update_removes_obj r u id hnull hnd hok
  refine ⟨hrem, ?_, ?_⟩
  · intro m hm
    show Except.ok (mapRemove id m) = Except.ok m
    rw [mapRemove_of_lookup_none id m hm]
  · intro us hno
    have hkeep := foldl_updates_keep_none id us hno (Room.update r u).1 hrem
    refine ⟨hkeep, ?_⟩
    intro v hv i j e hm
    obtain ⟨k, hk⟩ := visualize_objects_source _ v hv i j e hm
    refine ⟨k, hk, ?_⟩
    intro hkid
    subst hkid
    exact mapLookup_none_not_mem k _ hkeep e hk

/-- Witness for C3: deleting the present id gone from a concrete room
removes it from the object mapping. -/
theorem claim_C3_witness :
    mapLookup "gone" (Room.update c3Room c3Delta).1.objects = none :=
  (claim_C3_null_deletes c3Room c3Delta "gone" (by decide) (by decide)
    (by decide)).1


end Srv
